import Mathlib

/-!
# Verification of `httpdeadline` (matttproud/httpdeadline)

A shallow embedding of the Go package `httpdeadline` and of the parts of the
Go standard library it relies on (`net/http.ParseTime` over the three layouts
`http.TimeFormat`, `time.RFC850`, `time.ANSIC`; `net/textproto`'s
`CanonicalMIMEHeaderKey`; `net/url.Values.Has/Get`; `context.WithDeadline`).

Time instants are modelled as Unix seconds (`Int`).  Every value accepted by
the three layouts carries a whole number of seconds except for the
fractional-second quirk of `time.Parse` (a fraction appearing in the input but
not in the layout is consumed and stored as nanoseconds); the fraction is
discarded here, so all statements about deadlines are at second granularity,
which is the granularity the repository's own tests compare at.

Strings are processed as their character lists; the Go code operates on
bytes, but every byte the parsers and the canonicalizer can accept is ASCII,
and a non-ASCII character fails exactly where a non-ASCII byte sequence does.
-/

namespace Httpdeadline

/-! ## Character primitives -/

def isDigitChar (c : Char) : Bool := '0' ≤ c && c ≤ '9'

def digitVal (c : Char) : Nat := c.toNat - '0'.toNat

def isUpperChar (c : Char) : Bool := 'A' ≤ c && c ≤ 'Z'

def isLowerChar (c : Char) : Bool := 'a' ≤ c && c ≤ 'z'

/-- Number of leading decimal digits of `v` (Go `leadingInt`'s consumed span). -/
def digitsRun : List Char → Nat
  | [] => 0
  | c :: rest => if isDigitChar c then digitsRun rest + 1 else 0

/-- Case-insensitive ASCII comparison of one character against a table
character, as in Go `time`'s `match`: equal bytes, or both map to the same
lower-case ASCII letter under `| 0x20`. -/
def matchChar (c1 c2 : Char) : Bool :=
  c1 = c2 ||
    ((c1.toNat ||| 32) = (c2.toNat ||| 32) &&
      97 ≤ (c1.toNat ||| 32) && (c1.toNat ||| 32) ≤ 122)

/-! ## `net/textproto.CanonicalMIMEHeaderKey` -/

/-- Go `net/textproto.validHeaderFieldByte`: the HTTP token characters. -/
def validHeaderFieldChar (c : Char) : Bool :=
  isDigitChar c || isLowerChar c || isUpperChar c ||
    (c = '!' || c = '#' || c = '$' || c = '%' || c = '&' || c = '\'' ||
     c = '*' || c = '+' || c = '-' || c = '.' || c = '^' || c = '_' ||
     c = '\x60' || c = '|' || c = '~')

def asciiUpper (c : Char) : Char :=
  if isLowerChar c then Char.ofNat (c.toNat - 32) else c

def asciiLower (c : Char) : Char :=
  if isUpperChar c then Char.ofNat (c.toNat + 32) else c

/-- The canonicalization loop of `canonicalMIMEHeaderKey`: upper-case a letter
at the start and after each '-', lower-case every other letter. -/
def canonLoop : Bool → List Char → List Char
  | _, [] => []
  | upper, c :: rest =>
    let c2 := if upper then asciiUpper c else asciiLower c
    c2 :: canonLoop (c2 = '-') rest

/-- Go `net/textproto.CanonicalMIMEHeaderKey` (also exposed as
`net/http.CanonicalHeaderKey`): if any character is not a valid header-field
character the key is returned unchanged, otherwise it is canonicalized. -/
def canonicalHeaderKey (s : String) : String :=
  if s.data.all validHeaderFieldChar then String.mk (canonLoop true s.data) else s

/-! ## `time` parsing primitives -/

/-- Go `time.getnum`: one or two digits; exactly two when `fixed`. -/
def getnum (fixed : Bool) (v : List Char) : Option (Nat × List Char) :=
  match v with
  | [] => none
  | c1 :: rest1 =>
    if isDigitChar c1 then
      match rest1 with
      | c2 :: rest2 =>
        if isDigitChar c2 then some (10 * digitVal c1 + digitVal c2, rest2)
        else if fixed then none else some (digitVal c1, rest1)
      | [] => if fixed then none else some (digitVal c1, [])
    else none

/-- Match a literal layout fragment exactly (byte-for-byte in Go). -/
def dropLit (lit : List Char) (v : List Char) : Option (List Char) :=
  match lit, v with
  | [], rest => some rest
  | _ :: _, [] => none
  | l :: ls, c :: cs => if c = l then dropLit ls cs else none

/-- One step of Go `time.lookup`: does the table word `w` occur as a
case-insensitive prefix of `v`?  Returns the remainder when it does. -/
def matchWordPref : List Char → List Char → Option (List Char)
  | [], rest => some rest
  | _ :: _, [] => none
  | w :: ws, c :: cs => if matchChar c w then matchWordPref ws cs else none

/-- Go `time.lookup`: first table entry that is a case-insensitive prefix of
`v`, with its index and the remainder of `v`. -/
def lookupTab : List (List Char) → Nat → List Char → Option (Nat × List Char)
  | [], _, _ => none
  | w :: ws, i, v =>
    match matchWordPref w v with
    | some rest => some (i, rest)
    | none => lookupTab ws (i + 1) v

def lookupName (tab : List (List Char)) (v : List Char) : Option (Nat × List Char) :=
  lookupTab tab 0 v

def shortDayNames : List (List Char) :=
  ["Sun", "Mon", "Tue", "Wed", "Thu", "Fri", "Sat"].map String.data

def longDayNames : List (List Char) :=
  ["Sunday", "Monday", "Tuesday", "Wednesday", "Thursday", "Friday",
   "Saturday"].map String.data

def shortMonthNames : List (List Char) :=
  ["Jan", "Feb", "Mar", "Apr", "May", "Jun", "Jul", "Aug", "Sep", "Oct",
   "Nov", "Dec"].map String.data

/-- The `2006` chunk (`stdLongYear`): four characters, the first a digit, all
consumed by `atoi` — hence exactly four digits. -/
def getLongYear (v : List Char) : Option (Int × List Char) :=
  match v with
  | a :: b :: c :: d :: rest =>
    if isDigitChar a && isDigitChar b && isDigitChar c && isDigitChar d then
      some (((1000 * digitVal a + 100 * digitVal b + 10 * digitVal c +
        digitVal d : Nat) : Int), rest)
    else none
  | _ => none

/-- Go `time.atoi` restricted to a two-character slice: an optional sign
followed by digits, the whole slice consumed. -/
def atoi2 (a b : Char) : Option Int :=
  if isDigitChar a && isDigitChar b then
    some ((10 * digitVal a + digitVal b : Nat) : Int)
  else if a = '+' && isDigitChar b then some ((digitVal b : Nat) : Int)
  else if a = '-' && isDigitChar b then some (-((digitVal b : Nat) : Int))
  else none

/-- The `06` chunk (`stdYear`): two characters through `atoi`, then the Go
century rule `year >= 69 → 1900 + year, else 2000 + year`. -/
def getYear2 (v : List Char) : Option (Int × List Char) :=
  match v with
  | a :: b :: rest =>
    match atoi2 a b with
    | some y => some ((if 69 ≤ y then 1900 + y else 2000 + y), rest)
    | none => none
  | _ => none

/-- The `_2` chunk (`stdUnderDay`): an optional single leading space, then one
or two digits. -/
def getUnderDay (v : List Char) : Option (Nat × List Char) :=
  match v with
  | ' ' :: rest => getnum false rest
  | _ => getnum false v

/-- `time.Parse`'s special case after the seconds chunk: a fractional second
present in the input but absent from the layout is consumed (at most nine
digits); its value is discarded by this second-granularity model. -/
def skipFrac (v : List Char) : Option (List Char) :=
  match v with
  | c0 :: c1 :: rest =>
    if (c0 = '.' || c0 = ',') && isDigitChar c1 then
      let n := digitsRun rest + 1
      if 9 < n then none else some (v.drop (n + 1))
    else some v
  | _ => some v

/-- Go `time.parseSignedOffset`: the number of characters consumed by a
`±hh`-style zone, `0` when the form is invalid or the hours exceed 24. -/
def parseSignedOffset (v : List Char) : Nat :=
  match v with
  | [] => 0
  | c :: rest =>
    if c = '-' || c = '+' then
      let n := digitsRun rest
      if n = 0 then 0
      else
        let x := ((rest.take n).foldl (fun acc d => 10 * acc + digitVal d) 0)
        if 24 < x then 0 else n + 1
    else 0

/-- Go `time.parseGMT`: "GMT" optionally followed by a signed hour offset. -/
def parseGMT (v : List Char) : Nat :=
  match v.drop 3 with
  | [] => 3
  | c :: _ =>
    if c ≠ '-' && c ≠ '+' then 3 else 3 + parseSignedOffset (v.drop 3)

/-- Leading run of upper-case ASCII letters, counted up to the cap. -/
def upperRunCapped : List Char → Nat → Nat
  | _, 0 => 0
  | [], _ => 0
  | c :: rest, cap + 1 =>
    if isUpperChar c then upperRunCapped rest cap + 1 else 0

/-- Go `time.parseTimeZone`: the length of a zone abbreviation at the front of
`v`, when one is present. -/
def parseTimeZone (v : List Char) : Option Nat :=
  if v.length < 3 then none
  else if v.take 4 = "ChST".data || v.take 4 = "MeST".data then some 4
  else if v.take 3 = "GMT".data then some (parseGMT v)
  else if v.headD ' ' = '+' || v.headD ' ' = '-' then
    (let l := parseSignedOffset v
     if 0 < l then some l else none)
  else
    match upperRunCapped v 6 with
    | 3 => some 3
    | 4 => if (v.drop 3).headD ' ' = 'T' || v.take 4 = "WITA".data
           then some 4 else none
    | 5 => if (v.drop 4).headD ' ' = 'T' then some 5 else none
    | _ => none

/-- The `MST` chunk (`stdTZ`) of `time.Parse`: a literal `UTC` prefix, or a
zone abbreviation recognized by `parseTimeZone`.  With the process in UTC (no
zone database entry matches the abbreviation) the parsed instant is the wall
clock read as UTC in every accepted case — `time.Parse` attaches a fabricated
zone to the `Time` without shifting the instant — so only acceptance matters
here, not an offset. -/
def parseTZChunk (v : List Char) : Option (List Char) :=
  if v.take 3 = "UTC".data then some (v.drop 3)
  else
    match parseTimeZone v with
    | some n => some (v.drop n)
    | none => none

/-! ## Calendar arithmetic (`time.Date` at UTC, valid inputs only) -/

def isLeap (y : Int) : Bool := y % 4 = 0 && (y % 100 ≠ 0 || y % 400 = 0)

/-- Go `time.daysIn`. -/
def daysIn (m : Nat) (y : Int) : Nat :=
  if m = 2 then (if isLeap y then 29 else 28)
  else [31, 28, 31, 30, 31, 30, 31, 31, 30, 31, 30, 31].getD (m - 1) 0

/-- Days from the Unix epoch to the civil date `y-m-d` (proleptic Gregorian),
the standard days-from-civil computation; agrees with Go `time.Date` for the
in-range values the parsers produce. -/
def daysFromCivil (y : Int) (m d : Nat) : Int :=
  let y2 : Int := if m ≤ 2 then y - 1 else y
  let era : Int := (if 0 ≤ y2 then y2 else y2 - 399) / 400
  let yoe : Int := y2 - era * 400
  let doy : Int := (153 * (((m : Int) + 9) % 12) + 2) / 5 + (d : Int) - 1
  let doe : Int := yoe * 365 + yoe / 4 - yoe / 100 + doy
  era * 146097 + doe - 719468

/-- `time.Parse`'s end-of-parse date validation followed by the conversion to
a Unix instant at UTC (hour/minute/second ranges are checked at their chunks,
month and day here, as in Go). -/
def mkUnix (year : Int) (month day hour minute sec : Nat) : Option Int :=
  if month < 1 || 12 < month then none
  else if day < 1 || daysIn month year < day then none
  else some (daysFromCivil year month day * 86400 +
    ((hour * 3600 + minute * 60 + sec : Nat) : Int))

/-! ## The three layouts of `net/http.ParseTime` -/

/-- The `15:04:05` chunk run shared by all three layouts, with each chunk's
inline range check from `time.Parse` and the fractional-second special case
after the seconds chunk. -/
def parseClock (v : List Char) : Option (Nat × Nat × Nat × List Char) := do
  let (hour, v) ← getnum false v
  guard (hour < 24)
  let v ← dropLit ":".data v
  let (minute, v) ← getnum true v
  guard (minute < 60)
  let v ← dropLit ":".data v
  let (sec, v) ← getnum true v
  guard (sec < 60)
  let v ← skipFrac v
  some (hour, minute, sec, v)

/-- The `Mon, 02 Jan 2006 ` chunk run of `http.TimeFormat`; yields
(day, month index, year, rest). -/
def dateHTTPTimeFormat (v : List Char) : Option (Nat × Nat × Int × List Char) := do
  let (_, v) ← lookupName shortDayNames v
  let v ← dropLit ", ".data v
  let (day, v) ← getnum true v
  let v ← dropLit " ".data v
  let (mIdx, v) ← lookupName shortMonthNames v
  let v ← dropLit " ".data v
  let (year, v) ← getLongYear v
  let v ← dropLit " ".data v
  some (day, mIdx, year, v)

/-- `time.Parse` specialized to `http.TimeFormat`
(`"Mon, 02 Jan 2006 15:04:05 GMT"`; the trailing `GMT` is literal text, so the
instant is read as UTC). -/
def parseHTTPTimeFormat (v : List Char) : Option Int := do
  let (day, mIdx, year, v) ← dateHTTPTimeFormat v
  let (hour, minute, sec, v) ← parseClock v
  let v ← dropLit " GMT".data v
  guard (v = [])
  mkUnix year (mIdx + 1) day hour minute sec

/-- The `Monday, 02-Jan-06 ` chunk run of `time.RFC850`. -/
def dateRFC850 (v : List Char) : Option (Nat × Nat × Int × List Char) := do
  let (_, v) ← lookupName longDayNames v
  let v ← dropLit ", ".data v
  let (day, v) ← getnum true v
  let v ← dropLit "-".data v
  let (mIdx, v) ← lookupName shortMonthNames v
  let v ← dropLit "-".data v
  let (year, v) ← getYear2 v
  let v ← dropLit " ".data v
  some (day, mIdx, year, v)

/-- `time.Parse` specialized to `time.RFC850`
(`"Monday, 02-Jan-06 15:04:05 MST"`). -/
def parseRFC850 (v : List Char) : Option Int := do
  let (day, mIdx, year, v) ← dateRFC850 v
  let (hour, minute, sec, v) ← parseClock v
  let v ← dropLit " ".data v
  let v ← parseTZChunk v
  guard (v = [])
  mkUnix year (mIdx + 1) day hour minute sec

/-- The `Mon Jan _2 ` chunk run of `time.ANSIC`; the year follows the clock in
this layout, so only day and month are produced here. -/
def dateANSIC (v : List Char) : Option (Nat × Nat × List Char) := do
  let (_, v) ← lookupName shortDayNames v
  let v ← dropLit " ".data v
  let (mIdx, v) ← lookupName shortMonthNames v
  let v ← dropLit " ".data v
  let (day, v) ← getUnderDay v
  let v ← dropLit " ".data v
  some (day, mIdx, v)

/-- `time.Parse` specialized to `time.ANSIC`
(`"Mon Jan _2 15:04:05 2006"`; no zone, so UTC). -/
def parseANSIC (v : List Char) : Option Int := do
  let (day, mIdx, v) ← dateANSIC v
  let (hour, minute, sec, v) ← parseClock v
  let v ← dropLit " ".data v
  let (year, v) ← getLongYear v
  guard (v = [])
  mkUnix year (mIdx + 1) day hour minute sec

/-- Go `net/http.ParseTime`: try `http.TimeFormat`, `time.RFC850`,
`time.ANSIC` in order, returning the first success. -/
def parseTime (s : String) : Option Int :=
  match parseHTTPTimeFormat s.data with
  | some t => some t
  | none =>
    match parseRFC850 s.data with
    | some t => some t
    | none => parseANSIC s.data

/-! ## Contexts, requests and responses -/

/-- A `context.Context` reduced to the one observable the package manipulates:
its deadline (Unix seconds), absent when no deadline is set. -/
structure Ctx where
  deadline : Option Int
deriving Repr, DecidableEq

/-- Go `context.WithDeadline(parent, d)`: when the parent's deadline is
already strictly sooner than `d` the child keeps the parent's deadline
(`WithCancel(parent)` delegates `Deadline()` to the parent); otherwise the
child's deadline is `d`. -/
def Ctx.withDeadline (parent : Ctx) (d : Int) : Ctx :=
  match parent.deadline with
  | some cur => if cur < d then { deadline := some cur } else { deadline := some d }
  | none => { deadline := some d }

/-- Is the context's deadline exceeded at instant `now` (the derived timer has
fired, `ctx.Err() = DeadlineExceeded`)? -/
def Ctx.expiredAt (c : Ctx) (now : Int) : Bool :=
  match c.deadline with
  | some d => d ≤ now
  | none => false

/-- An inbound `*http.Request`, reduced to what the two adapters consult:
the raw header map (`http.Header`, a Go map from key to value slice — keys are
stored literally, canonicalization happens at the lookup sites), the parsed
query values (`url.Values`), and the request context. -/
structure Request where
  header : List (String × List String)
  query : List (String × List String)
  ctx : Ctx
deriving Repr, DecidableEq

/-- Go map indexing `m[k]` (comma-ok form): the value stored at `k`, if any. -/
def assocFind (m : List (String × List String)) (k : String) : Option (List String) :=
  match m with
  | [] => none
  | (k2, val) :: rest => if k2 = k then some val else assocFind rest k

/-- Go `http.Header.Get` (via `textproto.MIMEHeader.Get`): canonicalize the
key, return the first stored value, or `""` when the key is missing or its
slice is empty. -/
def headerGet (h : List (String × List String)) (name : String) : String :=
  match assocFind h (canonicalHeaderKey name) with
  | none => ""
  | some vals => vals.headD ""

/-- Go `url.Values.Has`: literal key membership, no canonicalization. -/
def queryHas (q : List (String × List String)) (name : String) : Bool :=
  (assocFind q name).isSome

/-- Go `url.Values.Get`: first value at the literal key, or `""`. -/
def queryGet (q : List (String × List String)) (name : String) : String :=
  match assocFind q name with
  | none => ""
  | some vals => vals.headD ""

/-! ## The two adapters

`FromHeader` and `FromQueryParams` are embedded twice over the same control
flow: as an `Outcome`-valued classification of what one invocation decides,
and as an event trace recording the observable actions of one invocation
(handler calls with their context, status writes, the deferred `cancel`). -/

/-- What one adapter invocation decides for a request. -/
inductive Outcome where
  /-- Field absent: the wrapped handler runs with the unmodified context. -/
  | passthrough
  /-- Field parsed: the wrapped handler runs with the derived child context,
  whose deadline comes from `Ctx.withDeadline` applied to the parsed time. -/
  | withDeadline (t : Int)
  /-- Validation failure: the status is written, the handler never runs. -/
  | reject (status : Nat)
deriving Repr, DecidableEq

def Outcome.isReject : Outcome → Bool
  | .reject _ => true
  | _ => false

/-- `FromHeader(name, h)`'s request function, `net/http.StatusBadRequest`
being 400.  The absence test is `req.Header[http.CanonicalHeaderKey(name)]`'s
comma-ok; the value is `req.Header.Get(name)`; the combined test
`val == "" || err != nil` is rendered as the empty check followed by the
parse match. -/
def fromHeader (name : String) (req : Request) : Outcome :=
  match assocFind req.header (canonicalHeaderKey name) with
  | none => .passthrough
  | some _ =>
    let val := headerGet req.header name
    if val = "" then .reject 400
    else
      match parseTime val with
      | none => .reject 400
      | some t => .withDeadline t

/-- `FromQueryParams(name, h)`'s request function: identical control flow with
the raw value sourced from `req.URL.Query()` instead of the header map. -/
def fromQueryParams (name : String) (req : Request) : Outcome :=
  if queryHas req.query name = false then .passthrough
  else
    let val := queryGet req.query name
    if val = "" then .reject 400
    else
      match parseTime val with
      | none => .reject 400
      | some t => .withDeadline t

/-- An observable action of one adapter invocation. -/
inductive Event where
  /-- `h.ServeHTTP(w, req)` with a request whose context is `c`. -/
  | invoke (c : Ctx)
  /-- `w.WriteHeader(status)`. -/
  | writeHeader (status : Nat)
  /-- The `defer cancel()` of the derived child context ran. -/
  | cancel
deriving Repr, DecidableEq

/-- How the wrapped handler's `ServeHTTP` exits when it is reached: a normal
return or a fault (panic).  A Go `defer` runs on either exit. -/
inductive HandlerExit where
  | normal
  | fault
deriving Repr, DecidableEq

/-- The events of one adapter invocation, given how the wrapped handler would
exit, paired with how the adapter invocation itself exits.  On the
validation-failure path the handler is never reached, so the adapter returns
normally; on the success path the deferred `cancel` runs after `ServeHTTP`
even when the handler faults, and the fault then propagates. -/
def runOutcome (req : Request) (o : Outcome) (hexit : HandlerExit) :
    List Event × HandlerExit :=
  match o with
  | .passthrough => ([.invoke req.ctx], hexit)
  | .reject status => ([.writeHeader status], .normal)
  | .withDeadline t => ([.invoke (req.ctx.withDeadline t), .cancel], hexit)

/-- One `FromHeader` invocation as a trace. -/
def fromHeaderRun (name : String) (req : Request) (hexit : HandlerExit) :
    List Event × HandlerExit :=
  runOutcome req (fromHeader name req) hexit

/-- One `FromQueryParams` invocation as a trace. -/
def fromQueryParamsRun (name : String) (req : Request) (hexit : HandlerExit) :
    List Event × HandlerExit :=
  runOutcome req (fromQueryParams name req) hexit

/-- Number of handler invocations in a trace. -/
def invokeCount (tr : List Event) : Nat :=
  (tr.filter fun e => match e with | .invoke _ => true | _ => false).length

/-- Number of `cancel` releases in a trace. -/
def cancelCount (tr : List Event) : Nat :=
  (tr.filter fun e => match e with | .cancel => true | _ => false).length

/-- Number of status writes in a trace. -/
def writeCount (tr : List Event) : Nat :=
  (tr.filter fun e => match e with | .writeHeader _ => true | _ => false).length

/-- Number of status writes with a status other than 400 in a trace. -/
def nonBadRequestWriteCount (tr : List Event) : Nat :=
  (tr.filter fun e =>
    match e with | .writeHeader s => decide (s ≠ 400) | _ => false).length

/-! ## Concrete fixtures

The instant `2024-07-22T20:10:00Z` of the repository's tests (`var now` in
`deadline_test.go`), its three encodings, and small concrete requests. -/

def fixtureInstant : Int := 1721679000

def httpDateFixture : String := "Mon, 22 Jul 2024 20:10:00 GMT"

def rfc850Fixture : String := "Monday, 22-Jul-24 20:10:00 GMT"

def ansicFixture : String := "Mon Jul 22 20:10:00 2024"

def noDeadlineCtx : Ctx := { deadline := none }

/-- A request carrying `val` in the `X-MTP-Deadline` header (stored under its
canonical key, as the server's header reader stores it). -/
def headerReqWith (val : String) : Request :=
  { header := [("X-Mtp-Deadline", [val])], query := [], ctx := noDeadlineCtx }

/-- A request carrying `val` in the `mtpdeadline` query parameter. -/
def queryReqWith (val : String) : Request :=
  { header := [], query := [("mtpdeadline", [val])], ctx := noDeadlineCtx }

/-- A request with no header and no query parameter. -/
def emptyReq : Request :=
  { header := [], query := [], ctx := noDeadlineCtx }

/-! ## Helper lemmas -/

theorem parseTime_empty : parseTime "" = none := rfl

theorem fromHeader_absent (name : String) (req : Request)
    (h : assocFind req.header (canonicalHeaderKey name) = none) :
    fromHeader name req = .passthrough := by
  unfold fromHeader
  rw [h]

theorem fromHeader_present_valid (name : String) (req : Request) (t : Int)
    (hh : (assocFind req.header (canonicalHeaderKey name)).isSome = true)
    (hp : parseTime (headerGet req.header name) = some t) :
    fromHeader name req = .withDeadline t := by
  unfold fromHeader
  obtain ⟨vals, hvals⟩ := Option.isSome_iff_exists.mp hh
  rw [hvals]
  by_cases hv : headerGet req.header name = ""
  · rw [hv, parseTime_empty] at hp
    exact absurd hp (by simp)
  · simp only [hv, if_false, hp]

theorem fromHeader_present_invalid (name : String) (req : Request)
    (hh : (assocFind req.header (canonicalHeaderKey name)).isSome = true)
    (hv : headerGet req.header name = "" ∨ parseTime (headerGet req.header name) = none) :
    fromHeader name req = .reject 400 := by
  unfold fromHeader
  obtain ⟨vals, hvals⟩ := Option.isSome_iff_exists.mp hh
  rw [hvals]
  rcases hv with hv | hv
  · simp only [hv, if_true]
  · by_cases he : headerGet req.header name = ""
    · simp only [he, if_true]
    · simp only [he, if_false, hv]

theorem fromQueryParams_absent (name : String) (req : Request)
    (h : queryHas req.query name = false) :
    fromQueryParams name req = .passthrough := by
  unfold fromQueryParams
  rw [h]
  simp

theorem fromQueryParams_present_valid (name : String) (req : Request) (t : Int)
    (hh : queryHas req.query name = true)
    (hp : parseTime (queryGet req.query name) = some t) :
    fromQueryParams name req = .withDeadline t := by
  unfold fromQueryParams
  rw [hh]
  by_cases hv : queryGet req.query name = ""
  · rw [hv, parseTime_empty] at hp
    exact absurd hp (by simp)
  · simp only [hv, if_false, hp]
    simp

theorem fromQueryParams_present_invalid (name : String) (req : Request)
    (hh : queryHas req.query name = true)
    (hv : queryGet req.query name = "" ∨ parseTime (queryGet req.query name) = none) :
    fromQueryParams name req = .reject 400 := by
  unfold fromQueryParams
  rw [hh]
  rcases hv with hv | hv
  · simp [hv]
  · by_cases he : queryGet req.query name = ""
    · simp [he]
    · simp [he, hv]

theorem fromHeader_present_not_passthrough (name : String) (req : Request)
    (hh : (assocFind req.header (canonicalHeaderKey name)).isSome = true) :
    fromHeader name req ≠ .passthrough := by
  rcases hp : parseTime (headerGet req.header name) with _ | t
  · rw [fromHeader_present_invalid name req hh (Or.inr hp)]
    simp
  · rw [fromHeader_present_valid name req t hh hp]
    simp

/-! ## Claims -/

/-- Claim C1 — for every request, each adapter produces exactly one of three
outcomes: absent field, handler invoked with the unmodified incoming context;
present field, either a valid deadline is imposed or the request is rejected
with 400 before the handler is reached; nothing else (`Outcome` has exactly
these three constructors, and the reject status is always 400). -/
theorem c1_adapter_outcome_trichotomy (name : String) (req : Request) :
    (assocFind req.header (canonicalHeaderKey name) = none →
      fromHeader name req = .passthrough) ∧
    ((assocFind req.header (canonicalHeaderKey name)).isSome = true →
      (∃ t, fromHeader name req = .withDeadline t) ∨
        fromHeader name req = .reject 400) ∧
    (queryHas req.query name = false →
      fromQueryParams name req = .passthrough) ∧
    (queryHas req.query name = true →
      (∃ t, fromQueryParams name req = .withDeadline t) ∨
        fromQueryParams name req = .reject 400) := by
  refine ⟨fromHeader_absent name req, ?_, fromQueryParams_absent name req, ?_⟩
  · intro hh
    rcases hp : parseTime (headerGet req.header name) with _ | t
    · exact Or.inr (fromHeader_present_invalid name req hh (Or.inr hp))
    · exact Or.inl ⟨t, fromHeader_present_valid name req t hh hp⟩
  · intro hh
    rcases hp : parseTime (queryGet req.query name) with _ | t
    · exact Or.inr (fromQueryParams_present_invalid name req hh (Or.inr hp))
    · exact Or.inl ⟨t, fromQueryParams_present_valid name req t hh hp⟩

theorem c1_adapter_outcome_trichotomy_witness :
    (fromHeader "X-MTP-Deadline" emptyReq = .passthrough) ∧
    ((∃ t, fromHeader "X-MTP-Deadline" (headerReqWith httpDateFixture) =
        .withDeadline t) ∨
      fromHeader "X-MTP-Deadline" (headerReqWith httpDateFixture) = .reject 400) ∧
    (fromQueryParams "mtpdeadline" emptyReq = .passthrough) ∧
    ((∃ t, fromQueryParams "mtpdeadline" (queryReqWith "nonsense") =
        .withDeadline t) ∨
      fromQueryParams "mtpdeadline" (queryReqWith "nonsense") = .reject 400) :=
  ⟨(c1_adapter_outcome_trichotomy "X-MTP-Deadline" emptyReq).1 (by decide),
   (c1_adapter_outcome_trichotomy "X-MTP-Deadline"
      (headerReqWith httpDateFixture)).2.1 (by decide),
   (c1_adapter_outcome_trichotomy "mtpdeadline" emptyReq).2.2.1 (by decide),
   (c1_adapter_outcome_trichotomy "mtpdeadline"
      (queryReqWith "nonsense")).2.2.2 (by decide)⟩

/-- Claim C2 — whenever the named field is present but its value is the empty
string or matches no accepted layout, both adapters write status 400, never
invoke the wrapped handler, and return normally; the whole invocation trace is
the single status write, identical in header and query modes (the empty and
unparsable cases are indistinguishable in it). -/
theorem c2_invalid_value_rejected_with_400 (name : String) (req : Request) :
    ((assocFind req.header (canonicalHeaderKey name)).isSome = true →
      headerGet req.header name = "" ∨
        parseTime (headerGet req.header name) = none →
      fromHeader name req = .reject 400 ∧
        ∀ hexit, fromHeaderRun name req hexit = ([.writeHeader 400], .normal)) ∧
    (queryHas req.query name = true →
      queryGet req.query name = "" ∨ parseTime (queryGet req.query name) = none →
      fromQueryParams name req = .reject 400 ∧
        ∀ hexit, fromQueryParamsRun name req hexit =
          ([.writeHeader 400], .normal)) := by
  constructor
  · intro hh hv
    have h := fromHeader_present_invalid name req hh hv
    refine ⟨h, fun hexit => ?_⟩
    unfold fromHeaderRun
    rw [h]
    rfl
  · intro hh hv
    have h := fromQueryParams_present_invalid name req hh hv
    refine ⟨h, fun hexit => ?_⟩
    unfold fromQueryParamsRun
    rw [h]
    rfl

theorem c2_invalid_value_rejected_with_400_witness :
    (fromHeader "X-MTP-Deadline" (headerReqWith "") = .reject 400 ∧
      ∀ hexit, fromHeaderRun "X-MTP-Deadline" (headerReqWith "") hexit =
        ([.writeHeader 400], .normal)) ∧
    (fromQueryParams "mtpdeadline"
        (queryReqWith (ansicFixture ++ "garbage")) = .reject 400 ∧
      ∀ hexit, fromQueryParamsRun "mtpdeadline"
          (queryReqWith (ansicFixture ++ "garbage")) hexit =
        ([.writeHeader 400], .normal)) :=
  ⟨(c2_invalid_value_rejected_with_400 "X-MTP-Deadline" (headerReqWith "")).1
      (by decide) (Or.inl (by decide)),
   (c2_invalid_value_rejected_with_400 "mtpdeadline"
        (queryReqWith (ansicFixture ++ "garbage"))).2
      (by decide) (Or.inr (by decide))⟩

/-- Claim C3 — the wrapped handler is invoked exactly once precisely when the
named field is absent or its value parses under an accepted layout, and zero
times otherwise, in both modes and however the handler would exit. -/
theorem c3_handler_invocation_count (name : String) (req : Request)
    (hexit : HandlerExit) :
    invokeCount (fromHeaderRun name req hexit).1 =
      (if (assocFind req.header (canonicalHeaderKey name)).isNone
          || (parseTime (headerGet req.header name)).isSome then 1 else 0) ∧
    invokeCount (fromQueryParamsRun name req hexit).1 =
      (if !queryHas req.query name
          || (parseTime (queryGet req.query name)).isSome then 1 else 0) := by
  constructor
  · rcases hh : assocFind req.header (canonicalHeaderKey name) with _ | vals
    · rw [fromHeaderRun, fromHeader_absent name req hh]
      simp [hh, runOutcome, invokeCount]
    · have hh2 : (assocFind req.header (canonicalHeaderKey name)).isSome = true := by
        rw [hh]; rfl
      rcases hp : parseTime (headerGet req.header name) with _ | t
      · rw [fromHeaderRun, fromHeader_present_invalid name req hh2 (Or.inr hp)]
        simp [hh, runOutcome, invokeCount]
      · rw [fromHeaderRun, fromHeader_present_valid name req t hh2 hp]
        simp [hh, runOutcome, invokeCount]
  · rcases hh : queryHas req.query name with _ | _
    · rw [fromQueryParamsRun, fromQueryParams_absent name req hh]
      simp [hh, runOutcome, invokeCount]
    · rcases hp : parseTime (queryGet req.query name) with _ | t
      · rw [fromQueryParamsRun, fromQueryParams_present_invalid name req hh (Or.inr hp)]
        simp [hh, runOutcome, invokeCount]
      · rw [fromQueryParamsRun, fromQueryParams_present_valid name req t hh hp]
        simp [hh, runOutcome, invokeCount]

/-- A request whose own context already has deadline 0 (the epoch), far
earlier than the fixture instant its header carries. -/
def earlyDeadlineReq : Request :=
  { header := [("X-Mtp-Deadline", [httpDateFixture])], query := [],
    ctx := { deadline := some 0 } }

/-- Claim C4, counterexample — the claim asserts the handler's context
deadline equals the parsed timestamp regardless of any deadline already on the
original context.  With a parent deadline at the epoch and the header parsing
to `fixtureInstant`, `context.WithDeadline` keeps the sooner parent deadline:
the handler observes deadline 0, not 1721679000. -/
theorem c4_deadline_regardless_of_parent_counterexample :
    parseTime httpDateFixture = some fixtureInstant ∧
    fromHeader "X-MTP-Deadline" earlyDeadlineReq = .withDeadline fixtureInstant ∧
    (fromHeaderRun "X-MTP-Deadline" earlyDeadlineReq .normal).1 =
      [.invoke { deadline := some 0 }, .cancel] ∧
    (0 : Int) ≠ fixtureInstant := by decide

/-- Claim C4, amended — for every request whose named field parses
successfully, the wrapped handler is invoked with a child of the original
request context whose deadline is the parsed timestamp capped by any strictly
earlier deadline already on the original context (the minimum of the two); it
equals the parsed timestamp whenever the original context has no earlier
deadline. -/
theorem c4_deadline_capped_by_parent (name : String) (req : Request) (t : Int) :
    ((assocFind req.header (canonicalHeaderKey name)).isSome = true →
      parseTime (headerGet req.header name) = some t →
      ∀ hexit, (fromHeaderRun name req hexit).1 =
        [.invoke (req.ctx.withDeadline t), .cancel]) ∧
    (queryHas req.query name = true →
      parseTime (queryGet req.query name) = some t →
      ∀ hexit, (fromQueryParamsRun name req hexit).1 =
        [.invoke (req.ctx.withDeadline t), .cancel]) ∧
    (req.ctx.withDeadline t).deadline =
      some (match req.ctx.deadline with
            | some cur => if cur < t then cur else t
            | none => t) := by
  refine ⟨?_, ?_, ?_⟩
  · intro hh hp hexit
    rw [fromHeaderRun, fromHeader_present_valid name req t hh hp]
    rfl
  · intro hh hp hexit
    rw [fromQueryParamsRun, fromQueryParams_present_valid name req t hh hp]
    rfl
  · unfold Ctx.withDeadline
    rcases req.ctx.deadline with _ | cur
    · rfl
    · by_cases hc : cur < t <;> simp [hc]

theorem c4_deadline_capped_by_parent_witness :
    ((fromHeaderRun "X-MTP-Deadline" (headerReqWith rfc850Fixture) .normal).1 =
      [.invoke ((headerReqWith rfc850Fixture).ctx.withDeadline fixtureInstant),
       .cancel]) ∧
    ((fromQueryParamsRun "mtpdeadline" (queryReqWith rfc850Fixture) .fault).1 =
      [.invoke ((queryReqWith rfc850Fixture).ctx.withDeadline fixtureInstant),
       .cancel]) ∧
    ((headerReqWith rfc850Fixture).ctx.withDeadline fixtureInstant).deadline =
      some fixtureInstant :=
  ⟨(c4_deadline_capped_by_parent "X-MTP-Deadline" (headerReqWith rfc850Fixture)
      fixtureInstant).1 (by decide) (by decide) .normal,
   (c4_deadline_capped_by_parent "mtpdeadline" (queryReqWith rfc850Fixture)
      fixtureInstant).2.1 (by decide) (by decide) .fault,
   by decide⟩

/-- Claim C5 — the three encodings of `2024-07-22T20:10:00Z` (HTTP-date,
RFC 850, ANSI C) each parse to that same instant, and in both header and query
modes the wrapped handler observes that instant as its context's deadline. -/
theorem c5_fixture_encodings_agree :
    parseTime httpDateFixture = some fixtureInstant ∧
    parseTime rfc850Fixture = some fixtureInstant ∧
    parseTime ansicFixture = some fixtureInstant ∧
    (∀ hexit,
      fromHeaderRun "X-MTP-Deadline" (headerReqWith httpDateFixture) hexit =
        ([.invoke { deadline := some fixtureInstant }, .cancel], hexit) ∧
      fromHeaderRun "X-MTP-Deadline" (headerReqWith rfc850Fixture) hexit =
        ([.invoke { deadline := some fixtureInstant }, .cancel], hexit) ∧
      fromHeaderRun "X-MTP-Deadline" (headerReqWith ansicFixture) hexit =
        ([.invoke { deadline := some fixtureInstant }, .cancel], hexit) ∧
      fromQueryParamsRun "mtpdeadline" (queryReqWith httpDateFixture) hexit =
        ([.invoke { deadline := some fixtureInstant }, .cancel], hexit) ∧
      fromQueryParamsRun "mtpdeadline" (queryReqWith rfc850Fixture) hexit =
        ([.invoke { deadline := some fixtureInstant }, .cancel], hexit) ∧
      fromQueryParamsRun "mtpdeadline" (queryReqWith ansicFixture) hexit =
        ([.invoke { deadline := some fixtureInstant }, .cancel], hexit)) := by
  refine ⟨by decide, by decide, by decide, fun hexit => ?_⟩
  cases hexit <;> exact ⟨by decide, by decide, by decide, by decide, by decide,
    by decide⟩

/-- Claim C6 — whenever the named field parses successfully, the derived child
context's cancellation is released exactly once, unconditionally, when the
adapter's invocation returns: the trace ends with the single deferred `cancel`
after the handler invocation, for a normal handler return and for a handler
fault alike (and the fault still propagates out of the adapter). -/
theorem c6_cancel_released_exactly_once (name : String) (req : Request) (t : Int) :
    ((assocFind req.header (canonicalHeaderKey name)).isSome = true →
      parseTime (headerGet req.header name) = some t →
      ∀ hexit,
        cancelCount (fromHeaderRun name req hexit).1 = 1 ∧
        (fromHeaderRun name req hexit).1 =
          [.invoke (req.ctx.withDeadline t), .cancel] ∧
        (fromHeaderRun name req hexit).2 = hexit) ∧
    (queryHas req.query name = true →
      parseTime (queryGet req.query name) = some t →
      ∀ hexit,
        cancelCount (fromQueryParamsRun name req hexit).1 = 1 ∧
        (fromQueryParamsRun name req hexit).1 =
          [.invoke (req.ctx.withDeadline t), .cancel] ∧
        (fromQueryParamsRun name req hexit).2 = hexit) := by
  constructor
  · intro hh hp hexit
    rw [fromHeaderRun, fromHeader_present_valid name req t hh hp]
    exact ⟨rfl, rfl, rfl⟩
  · intro hh hp hexit
    rw [fromQueryParamsRun, fromQueryParams_present_valid name req t hh hp]
    exact ⟨rfl, rfl, rfl⟩

theorem c6_cancel_released_exactly_once_witness :
    (∀ hexit,
      cancelCount (fromHeaderRun "X-MTP-Deadline" (headerReqWith ansicFixture)
        hexit).1 = 1 ∧
      (fromHeaderRun "X-MTP-Deadline" (headerReqWith ansicFixture) hexit).1 =
        [.invoke ((headerReqWith ansicFixture).ctx.withDeadline fixtureInstant),
         .cancel] ∧
      (fromHeaderRun "X-MTP-Deadline" (headerReqWith ansicFixture) hexit).2 =
        hexit) ∧
    (∀ hexit,
      cancelCount (fromQueryParamsRun "mtpdeadline" (queryReqWith ansicFixture)
        hexit).1 = 1 ∧
      (fromQueryParamsRun "mtpdeadline" (queryReqWith ansicFixture) hexit).1 =
        [.invoke ((queryReqWith ansicFixture).ctx.withDeadline fixtureInstant),
         .cancel] ∧
      (fromQueryParamsRun "mtpdeadline" (queryReqWith ansicFixture) hexit).2 =
        hexit) :=
  ⟨(c6_cancel_released_exactly_once "X-MTP-Deadline"
      (headerReqWith ansicFixture) fixtureInstant).1 (by decide) (by decide),
   (c6_cancel_released_exactly_once "mtpdeadline"
      (queryReqWith ansicFixture) fixtureInstant).2 (by decide) (by decide)⟩

/-- Claim C7 — the adapter writes to the response only on the
validation-failure path: a trace carries a status write exactly when the
outcome is a rejection, and every status it ever writes is 400 (the embedding
records every response effect of the adapter, and it has no body-writing
action at all: on success and absent paths the trace holds no write event). -/
theorem c7_adapter_writes_only_on_failure (name : String) (req : Request)
    (hexit : HandlerExit) :
    writeCount (fromHeaderRun name req hexit).1 =
      (if (fromHeader name req).isReject then 1 else 0) ∧
    nonBadRequestWriteCount (fromHeaderRun name req hexit).1 = 0 ∧
    writeCount (fromQueryParamsRun name req hexit).1 =
      (if (fromQueryParams name req).isReject then 1 else 0) ∧
    nonBadRequestWriteCount (fromQueryParamsRun name req hexit).1 = 0 := by
  refine ⟨?_, ?_, ?_, ?_⟩
  · rcases hh : assocFind req.header (canonicalHeaderKey name) with _ | vals
    · rw [fromHeaderRun, fromHeader_absent name req hh]
      rfl
    · have hh2 : (assocFind req.header (canonicalHeaderKey name)).isSome = true := by
        rw [hh]; rfl
      rcases hp : parseTime (headerGet req.header name) with _ | t
      · rw [fromHeaderRun, fromHeader_present_invalid name req hh2 (Or.inr hp)]
        rfl
      · rw [fromHeaderRun, fromHeader_present_valid name req t hh2 hp]
        rfl
  · rcases hh : assocFind req.header (canonicalHeaderKey name) with _ | vals
    · rw [fromHeaderRun, fromHeader_absent name req hh]
      rfl
    · have hh2 : (assocFind req.header (canonicalHeaderKey name)).isSome = true := by
        rw [hh]; rfl
      rcases hp : parseTime (headerGet req.header name) with _ | t
      · rw [fromHeaderRun, fromHeader_present_invalid name req hh2 (Or.inr hp)]
        rfl
      · rw [fromHeaderRun, fromHeader_present_valid name req t hh2 hp]
        rfl
  · rcases hh : queryHas req.query name with _ | _
    · rw [fromQueryParamsRun, fromQueryParams_absent name req hh]
      rfl
    · rcases hp : parseTime (queryGet req.query name) with _ | t
      · rw [fromQueryParamsRun, fromQueryParams_present_invalid name req hh (Or.inr hp)]
        rfl
      · rw [fromQueryParamsRun, fromQueryParams_present_valid name req t hh hp]
        rfl
  · rcases hh : queryHas req.query name with _ | _
    · rw [fromQueryParamsRun, fromQueryParams_absent name req hh]
      rfl
    · rcases hp : parseTime (queryGet req.query name) with _ | t
      · rw [fromQueryParamsRun, fromQueryParams_present_invalid name req hh (Or.inr hp)]
        rfl
      · rw [fromQueryParamsRun, fromQueryParams_present_valid name req t hh hp]
        rfl

/-- Claim C8 — for any two separate requests carrying the same well-formed
field value, each adapter independently succeeds on both with the same parsed
deadline: the outcome is a function of the request alone (the embedding of
the adapters is a pure function, holding no state across invocations), and
through the shared value it is the same `withDeadline` on both requests. -/
theorem c8_same_value_same_deadline (name : String) (req1 req2 : Request)
    (v : String) (t : Int) :
    ((assocFind req1.header (canonicalHeaderKey name)).isSome = true →
      (assocFind req2.header (canonicalHeaderKey name)).isSome = true →
      headerGet req1.header name = v → headerGet req2.header name = v →
      parseTime v = some t →
      fromHeader name req1 = .withDeadline t ∧
        fromHeader name req2 = .withDeadline t) ∧
    (queryHas req1.query name = true → queryHas req2.query name = true →
      queryGet req1.query name = v → queryGet req2.query name = v →
      parseTime v = some t →
      fromQueryParams name req1 = .withDeadline t ∧
        fromQueryParams name req2 = .withDeadline t) := by
  constructor
  · intro h1 h2 hv1 hv2 hp
    exact ⟨fromHeader_present_valid name req1 t h1 (hv1 ▸ hp),
           fromHeader_present_valid name req2 t h2 (hv2 ▸ hp)⟩
  · intro h1 h2 hv1 hv2 hp
    exact ⟨fromQueryParams_present_valid name req1 t h1 (hv1 ▸ hp),
           fromQueryParams_present_valid name req2 t h2 (hv2 ▸ hp)⟩

theorem c8_same_value_same_deadline_witness :
    (fromHeader "X-MTP-Deadline" (headerReqWith httpDateFixture) =
        .withDeadline fixtureInstant ∧
      fromHeader "X-MTP-Deadline"
          { header := [("X-Mtp-Deadline", [httpDateFixture])],
            query := [("other", ["x"])], ctx := { deadline := some 9999999999 } } =
        .withDeadline fixtureInstant) ∧
    (fromQueryParams "mtpdeadline" (queryReqWith httpDateFixture) =
        .withDeadline fixtureInstant ∧
      fromQueryParams "mtpdeadline"
          { header := [("Accept", ["*"])],
            query := [("mtpdeadline", [httpDateFixture])],
            ctx := noDeadlineCtx } =
        .withDeadline fixtureInstant) :=
  ⟨(c8_same_value_same_deadline "X-MTP-Deadline" (headerReqWith httpDateFixture)
      { header := [("X-Mtp-Deadline", [httpDateFixture])],
        query := [("other", ["x"])], ctx := { deadline := some 9999999999 } }
      httpDateFixture fixtureInstant).1
      (by decide) (by decide) (by decide) (by decide) (by decide),
   (c8_same_value_same_deadline "mtpdeadline" (queryReqWith httpDateFixture)
      { header := [("Accept", ["*"])],
        query := [("mtpdeadline", [httpDateFixture])], ctx := noDeadlineCtx }
      httpDateFixture fixtureInstant).2
      (by decide) (by decide) (by decide) (by decide) (by decide)⟩

/-- A request whose header map stores the deadline under the non-canonical
key `x-deadline` (possible for a directly constructed `http.Header`; the
server's own reader always stores canonical keys). -/
def lowercaseKeyReq : Request :=
  { header := [("x-deadline", [httpDateFixture])], query := [],
    ctx := noDeadlineCtx }

/-- Claim C9, counterexample — the claim says the field counts as present
whenever any case variant canonicalizing to the same header key is set.  Here
the variant `x-deadline` (canonicalizing to `X-Deadline`, like the supplied
name) is set in the header map with a parseable value, yet `FromHeader` looks
up only the literal canonical key and treats the field as absent. -/
theorem c9_case_insensitive_presence_counterexample :
    canonicalHeaderKey "x-deadline" = canonicalHeaderKey "X-Deadline" ∧
    assocFind lowercaseKeyReq.header "x-deadline" = some [httpDateFixture] ∧
    (parseTime httpDateFixture).isSome = true ∧
    fromHeader "x-deadline" lowercaseKeyReq = .passthrough := by decide

/-- Claim C9, amended — in header mode the lookup key is the canonicalized
supplied name: the field counts as present exactly when the header map
contains that canonical key literally, so behaviour is case-insensitive in
the supplied name (any two names with equal canonicalizations behave
identically), while set case variants are only found when the map stores keys
canonically, as the HTTP server's header reader does. -/
theorem c9_canonical_name_lookup (name1 name2 : String) (req : Request)
    (h : canonicalHeaderKey name1 = canonicalHeaderKey name2) :
    fromHeader name1 req = fromHeader name2 req ∧
    (fromHeader name1 req = .passthrough ↔
      assocFind req.header (canonicalHeaderKey name1) = none) := by
  constructor
  · unfold fromHeader headerGet
    rw [h]
  · rcases hh : assocFind req.header (canonicalHeaderKey name1) with _ | vals
    · simp [fromHeader_absent name1 req hh]
    · have hh2 : (assocFind req.header (canonicalHeaderKey name1)).isSome = true := by
        rw [hh]; rfl
      simp [fromHeader_present_not_passthrough name1 req hh2, hh]

theorem c9_canonical_name_lookup_witness :
    fromHeader "x-mtp-deadline" (headerReqWith rfc850Fixture) =
      fromHeader "X-MTP-Deadline" (headerReqWith rfc850Fixture) ∧
    (fromHeader "x-mtp-deadline" (headerReqWith rfc850Fixture) = .passthrough ↔
      assocFind (headerReqWith rfc850Fixture).header
        (canonicalHeaderKey "x-mtp-deadline") = none) :=
  c9_canonical_name_lookup "x-mtp-deadline" "X-MTP-Deadline"
    (headerReqWith rfc850Fixture) (by decide)

/-- Claim C10 — a value parsing to a timestamp in the past is not rejected:
whenever the named field parses, to any instant `t` whatsoever (no lower
bound, so in particular an already-elapsed one), no 400 is written and the
handler still runs exactly once, with a child context that is already
expired at every instant from `t` on — in particular from the moment it was
derived whenever `t` lies in the past. -/
theorem c10_past_deadline_accepted (name : String) (req : Request) (t : Int) :
    ((assocFind req.header (canonicalHeaderKey name)).isSome = true →
      parseTime (headerGet req.header name) = some t →
      fromHeader name req = .withDeadline t ∧
      ∀ hexit,
        invokeCount (fromHeaderRun name req hexit).1 = 1 ∧
        writeCount (fromHeaderRun name req hexit).1 = 0) ∧
    (queryHas req.query name = true →
      parseTime (queryGet req.query name) = some t →
      fromQueryParams name req = .withDeadline t ∧
      ∀ hexit,
        invokeCount (fromQueryParamsRun name req hexit).1 = 1 ∧
        writeCount (fromQueryParamsRun name req hexit).1 = 0) ∧
    (∀ now : Int, t ≤ now → (req.ctx.withDeadline t).expiredAt now = true) := by
  refine ⟨?_, ?_, ?_⟩
  · intro hh hp
    have h := fromHeader_present_valid name req t hh hp
    exact ⟨h, fun hexit => by rw [fromHeaderRun, h]; exact ⟨rfl, rfl⟩⟩
  · intro hh hp
    have h := fromQueryParams_present_valid name req t hh hp
    exact ⟨h, fun hexit => by rw [fromQueryParamsRun, h]; exact ⟨rfl, rfl⟩⟩
  · intro now hnow
    unfold Ctx.withDeadline Ctx.expiredAt
    rcases req.ctx.deadline with _ | cur
    · simpa using hnow
    · by_cases hc : cur < t
      · simp only [hc, if_true]
        simpa using le_trans (le_of_lt hc) hnow
      · simp only [hc, if_false]
        simpa using hnow

theorem c10_past_deadline_accepted_witness :
    (fromHeader "X-MTP-Deadline" (headerReqWith httpDateFixture) =
        .withDeadline fixtureInstant ∧
      ∀ hexit,
        invokeCount (fromHeaderRun "X-MTP-Deadline"
          (headerReqWith httpDateFixture) hexit).1 = 1 ∧
        writeCount (fromHeaderRun "X-MTP-Deadline"
          (headerReqWith httpDateFixture) hexit).1 = 0) ∧
    ((headerReqWith httpDateFixture).ctx.withDeadline
        fixtureInstant).expiredAt (fixtureInstant + 1) = true :=
  ⟨(c10_past_deadline_accepted "X-MTP-Deadline" (headerReqWith httpDateFixture)
      fixtureInstant).1 (by decide) (by decide),
   (c10_past_deadline_accepted "X-MTP-Deadline" (headerReqWith httpDateFixture)
      fixtureInstant).2.2 (fixtureInstant + 1) (by decide)⟩

end Httpdeadline
